import Mathlib

/-!
Verification development for the pi_asap_power_agent repository.

Shallow embedding of the three core modules:
  * `src/audio/audioManager.js`   (sample converter, playback queue)
  * `src/websocket/elevenlabsClient.js` (session protocol engine)
  * `src/voiceActivation.js`      (voice activity gate)

Byte buffers are lists of `Fin 256`; JavaScript code that can throw is
embedded as an `Option`-valued body (`none` = exception), with the
surrounding try/catch modelled by pattern matching on that body.
-/

/-! ## Byte buffers and the 16-bit little-endian codec -/

/-- A Node.js `Buffer`: a sequence of bytes. -/
abbrev Buffer := List (Fin 256)

/-- Decode two bytes (lo, hi) as a 16-bit signed little-endian integer,
as `buffer.readInt16LE` does. -/
def decodeInt16 (lo hi : Fin 256) : Int :=
  let u : Nat := lo.val + 256 * hi.val
  if u < 32768 then (u : Int) else (u : Int) - 65536

/-- The 16-bit signed little-endian value stored at byte offset `i`
(out-of-range bytes read as 0; callers guard the range separately). -/
def decodeAt (b : Buffer) (i : Nat) : Int :=
  decodeInt16 (b.getD i 0) (b.getD (i + 1) 0)

/-- Encode a 16-bit signed integer as two little-endian bytes, as
`buffer.writeInt16LE` stores it (the caller checks the range). -/
def encodeInt16 (v : Int) : Buffer :=
  let u : Nat := (v % 65536).toNat
  [⟨u % 256, Nat.mod_lt _ (by norm_num)⟩, ⟨u / 256 % 256, Nat.mod_lt _ (by norm_num)⟩]

/-! ## Sample converter (`convertAudioFormat`, audioManager.js lines 37-81)

The JS body:
  1. reads 16-bit samples at byte offsets 0, 2, 4, ...; the read at an
     offset beyond `length - 2` throws (odd-length buffer);
  2. averages channel pairs: `Math.round((left + right) / 2)` where a
     missing right channel reads as 0 (`inputSamples[i+1] || 0`);
     for integers, `Math.round(s / 2)` equals floor `(s + 1) / 2`;
  3. keeps every third mono sample (decimationFactor = 48000/16000 = 3);
  4. writes the results back with `writeInt16LE`, which throws on a
     value outside the signed 16-bit range.
The whole body sits in a try/catch whose catch returns the input buffer.
-/

/-- Step 1: the sample-read loop. `none` models the thrown RangeError on
a trailing odd byte. -/
def readSamples : Buffer → Option (List Int)
  | [] => some []
  | [_] => none
  | b0 :: b1 :: rest =>
    match readSamples rest with
    | some l => some (decodeInt16 b0 b1 :: l)
    | none => none

/-- Rounded average of the two channels of one frame:
`Math.round((left + right) / 2)` on integers, i.e. floor of `(l+r+1)/2`. -/
def avgChannels (l r : Int) : Int :=
  (l + r + 1) / 2

/-- Step 2: stereo-to-mono downmix loop (channel count 2; a missing
right channel of a trailing half frame reads as 0). -/
def monoSamples : List Int → List Int
  | [] => []
  | [l] => [avgChannels l 0]
  | l :: r :: rest => avgChannels l r :: monoSamples rest

/-- Step 3: decimation by 3 (indices 0, 3, 6, ...). -/
def downsample3 : List Int → List Int
  | [] => []
  | [x] => [x]
  | [x, _] => [x]
  | x :: _ :: _ :: rest => x :: downsample3 rest

/-- Step 4: the output-write loop; `none` models the RangeError thrown
by `writeInt16LE` on an out-of-range value. -/
def writeAllSamples : List Int → Option Buffer
  | [] => some []
  | v :: rest =>
    if -32768 ≤ v ∧ v ≤ 32767 then
      match writeAllSamples rest with
      | some bs => some (encodeInt16 v ++ bs)
      | none => none
    else none

/-- The try-block body of `convertAudioFormat`. -/
def convertBody (input : Buffer) : Option Buffer :=
  match readSamples input with
  | none => none
  | some inputSamples => writeAllSamples (downsample3 (monoSamples inputSamples))

/-- `convertAudioFormat` (audioManager.js lines 37-81): the converted
buffer, or — via the catch branch — the original input if the body threw. -/
def convertAudioFormat (input : Buffer) : Buffer :=
  match convertBody input with
  | some out => out
  | none => input

/-- Formalisation of the specification words for the malformed-input case
of the converter: convert only the longest prefix made of whole frames
(one stereo 16-bit frame = 4 bytes). Used to compare the code against the
claimed behaviour; not part of the code. -/
def specConvertWholeFramesOnly (input : Buffer) : Buffer :=
  convertAudioFormat (input.take (input.length / 4 * 4))

/-- A concrete well-formed capture buffer: three stereo 16-bit frames
(12 bytes), first frame left = 2, right = 4. -/
def sampleInput12 : Buffer := [2, 0, 4, 0, 0, 0, 0, 0, 0, 0, 0, 0]

/-! ## Session protocol engine (`ElevenLabsClient`, elevenlabsClient.js)

State fields mirror the constructor; observable effects (socket sends,
logging, event-handler invocations, scheduled reconnect timers) are
collected as a list of `EngineAction`.
-/

/-- The readyState of the underlying `ws` WebSocket object. -/
inductive WsReadyState
  | connecting
  | wsOpen
  | closing
  | closed
deriving DecidableEq, Repr

/-- Outbound protocol messages (the tagged union serialised by the client). -/
inductive OutboundMessage
  | conversationInit
  | userAudioChunk (data : String)
  | userMessage (text : String)
  | clientToolResult (toolCallId : String) (result : String) (isError : Bool)
  | contextualUpdate (text : String)
  | userActivity
  | pong (eventId : String)
deriving DecidableEq, Repr

/-- Parsed inbound protocol messages (the `message.type` dispatch). -/
inductive InboundMessage
  | initMetadata (conversationId : String)
  | audio (dataB64 : String) (eventId : String)
  | userTranscript (transcript : String)
  | agentResponse (response : String)
  | agentResponseCorrection (corrected : String)
  | ping (eventId : String)
  | clientToolCall (toolCallId : String)
  | vadScore (score : Int)
  | interrupt
  | tentativeResponse (response : String)
  | unknownTag
deriving DecidableEq, Repr

/-- The event-handler slots that can be registered (`this.eventHandlers`);
`true` means a handler is registered. -/
structure Handlers where
  onConnect : Bool
  onDisconnect : Bool
  onError : Bool
  onAudioReceived : Bool
  onTranscriptReceived : Bool
  onAgentResponse : Bool
  onPing : Bool
  onToolCall : Bool
  onVadScore : Bool
deriving DecidableEq, Repr

/-- One observable effect of the protocol engine. -/
inductive EngineAction
  | send (m : OutboundMessage)
  | logError (msg : String)
  | logLine (msg : String)
  | invoke (h : String)
  | scheduleReconnect (delayMs : Nat)
deriving DecidableEq, Repr

/-- Mutable state of `ElevenLabsClient`. -/
structure EngineState where
  ws : Option WsReadyState
  isConnected : Bool
  reconnectAttempts : Nat
  maxReconnectAttempts : Nat
  reconnectDelay : Nat
  conversationId : Option String
  handlers : Handlers
deriving DecidableEq, Repr

/-- `sendMessage` (lines 343-362): fails fast unless the socket exists and
its readyState is OPEN; otherwise serialises and sends. It never mutates
engine state, so the state is returned unchanged on both paths. -/
def sendMessage (s : EngineState) (m : OutboundMessage) :
    EngineState × Bool × List EngineAction :=
  if s.ws = some WsReadyState.wsOpen then
    (s, true, [EngineAction.send m])
  else
    (s, false, [EngineAction.logError "Cannot send message: WebSocket not connected"])

/-- `sendAudioChunk` (lines 284-294): drops the chunk when not connected or
when the data is falsy (empty string). The JS function has no return
statement with a value, so its result is `undefined` on every path,
modelled as `Option Bool := none`. -/
def sendAudioChunk (s : EngineState) (base64AudioData : String) :
    EngineState × Option Bool × List EngineAction :=
  if s.isConnected = false ∨ base64AudioData = "" then
    (s, none, [])
  else
    let r := sendMessage s (OutboundMessage.userAudioChunk base64AudioData)
    (r.1, none, r.2.2)

/-- `handlePing` (lines 231-246): log, answer with a pong carrying the
same event id, then invoke the registered ping handler if any. -/
def handlePing (s : EngineState) (eventId : String) :
    EngineState × List EngineAction :=
  let r := sendMessage s (OutboundMessage.pong eventId)
  (r.1, EngineAction.logLine "Received ping" :: r.2.2 ++
    (if s.handlers.onPing then [EngineAction.invoke "onPing"] else []))

/-- `handleMessage` (lines 117-171): decode, log, and dispatch on the
message-type tag; only `conversation_initiation_metadata` mutates state. -/
def handleMessage (s : EngineState) (m : InboundMessage) :
    EngineState × List EngineAction :=
  let recvLog := EngineAction.logLine "Received message"
  match m with
  | InboundMessage.initMetadata cid =>
      ({ s with conversationId := some cid }, [recvLog, EngineAction.logLine "Conversation initialized"])
  | InboundMessage.audio _ _ =>
      (s, [recvLog, EngineAction.logLine "Received audio chunk"] ++
        (if s.handlers.onAudioReceived then [EngineAction.invoke "onAudioReceived"] else []))
  | InboundMessage.userTranscript _ =>
      (s, [recvLog, EngineAction.logLine "User transcript received"] ++
        (if s.handlers.onTranscriptReceived then [EngineAction.invoke "onTranscriptReceived"] else []))
  | InboundMessage.agentResponse _ =>
      (s, [recvLog, EngineAction.logLine "Agent response received"] ++
        (if s.handlers.onAgentResponse then [EngineAction.invoke "onAgentResponse"] else []))
  | InboundMessage.agentResponseCorrection _ =>
      (s, [recvLog, EngineAction.logLine "Agent response corrected"] ++
        (if s.handlers.onAgentResponse then [EngineAction.invoke "onAgentResponse"] else []))
  | InboundMessage.ping eventId =>
      let r := handlePing s eventId
      (r.1, recvLog :: r.2)
  | InboundMessage.clientToolCall _ =>
      (s, [recvLog, EngineAction.logLine "Tool call requested"] ++
        (if s.handlers.onToolCall then [EngineAction.invoke "onToolCall"] else []))
  | InboundMessage.vadScore _ =>
      (s, [recvLog] ++
        (if s.handlers.onVadScore then [EngineAction.invoke "onVadScore"] else []))
  | InboundMessage.interrupt =>
      (s, [recvLog, EngineAction.logLine "Interruption detected"])
  | InboundMessage.tentativeResponse _ =>
      (s, [recvLog, EngineAction.logLine "Tentative agent response"])
  | InboundMessage.unknownTag =>
      (s, [recvLog, EngineAction.logLine "Unknown message type received"])

/-- The `open` event handler installed by `connect` (lines 52-64): mark
connected, reset the attempt counter, send the conversation-init message,
then invoke the registered connect handler. -/
def handleOpen (s : EngineState) : EngineState × List EngineAction :=
  let s1 := { s with ws := some WsReadyState.wsOpen, isConnected := true,
                     reconnectAttempts := 0 }
  let r := sendMessage s1 OutboundMessage.conversationInit
  (r.1, EngineAction.logLine "WebSocket connection established" :: r.2.2 ++
    (if s1.handlers.onConnect then [EngineAction.invoke "onConnect"] else []))

/-- `handleDisconnection` (lines 380-399) together with `attemptReconnect`
(lines 402-415): clear connection state, notify the disconnect handler,
then either schedule a reconnect after `reconnectDelay * newAttemptCount`
milliseconds or, past the cap, log a terminal error. -/
def handleDisconnection (s : EngineState) : EngineState × List EngineAction :=
  let s1 := { s with isConnected := false, conversationId := none,
                     ws := some WsReadyState.closed }
  let discActs := if s1.handlers.onDisconnect then [EngineAction.invoke "onDisconnect"] else []
  if s1.reconnectAttempts < s1.maxReconnectAttempts then
    let s2 := { s1 with reconnectAttempts := s1.reconnectAttempts + 1 }
    (s2, discActs ++ [EngineAction.scheduleReconnect (s2.reconnectDelay * s2.reconnectAttempts)])
  else
    (s1, discActs ++ [EngineAction.logError "Max reconnection attempts reached"])

/-- Iterated connection failures: state after `k` consecutive `close`
events handled by `handleDisconnection`. -/
def iterFail (s : EngineState) : Nat → EngineState
  | 0 => s
  | k + 1 => (handleDisconnection (iterFail s k)).1

/-! ## Playback queue (`playAudio` / `playAudioBuffer`, audioManager.js) -/

/-- Pipeline playback state: the `isPlaying` flag and `audioQueue` of
`AudioManager`; chunks are identified by their (base64) payload strings. -/
structure PlayerState where
  isPlaying : Bool
  audioQueue : List String
deriving DecidableEq, Repr

/-- Externally visible playback events: an `playAudio(chunk)` call, or the
`aplay` child process closing with code 0 (success) or nonzero / error. -/
inductive PlayEvent
  | enqueue (chunk : String)
  | doneOk
  | doneErr
deriving DecidableEq, Repr

/-- `playAudio` (lines 150-173): empty data is dropped with a warning;
while a render is in flight the chunk is appended to `audioQueue`;
otherwise `playAudioBuffer` starts rendering it at once. The second
component lists the chunks whose rendering starts during the call. -/
def playAudio (s : PlayerState) (chunk : String) : PlayerState × List String :=
  if chunk = "" then (s, [])
  else if s.isPlaying then ({ s with audioQueue := s.audioQueue ++ [chunk] }, [])
  else ({ s with isPlaying := true }, [chunk])

/-- The `aplay` close/error callbacks inside `playAudioBuffer`
(lines 190-224): on exit code 0 the head of the queue (if any) starts
rendering next; on a nonzero exit code or spawn error `isPlaying` is
cleared and the queue is left untouched. -/
def playbackDone (s : PlayerState) (ok : Bool) : PlayerState × List String :=
  if ok then
    match s.audioQueue with
    | [] => ({ s with isPlaying := false }, [])
    | c :: rest => ({ s with isPlaying := true, audioQueue := rest }, [c])
  else ({ s with isPlaying := false }, [])

/-- One playback event step. A completion event can only originate from a
spawned `aplay` process, so it is a no-op when nothing is rendering. -/
def playerStep (s : PlayerState) : PlayEvent → PlayerState × List String
  | PlayEvent.enqueue c => playAudio s c
  | PlayEvent.doneOk => if s.isPlaying then playbackDone s true else (s, [])
  | PlayEvent.doneErr => if s.isPlaying then playbackDone s false else (s, [])

/-- Run a sequence of playback events, accumulating the chunks in the
order their rendering starts. -/
def runPlayer (s : PlayerState) : List PlayEvent → PlayerState × List String
  | [] => (s, [])
  | e :: es =>
    let r1 := playerStep s e
    let r2 := runPlayer r1.1 es
    (r2.1, r1.2 ++ r2.2)

/-- The chunks submitted by `playAudio` calls of an event sequence, in
arrival order (empty chunks are dropped by `playAudio` before queueing). -/
def enqueuedOf (es : List PlayEvent) : List String :=
  es.filterMap fun e =>
    match e with
    | PlayEvent.enqueue c => if c = "" then none else some c
    | _ => none

/-- The idle pipeline: nothing rendering, empty queue. -/
def initialPlayer : PlayerState := { isPlaying := false, audioQueue := [] }

/-! ## Voice activity gate (`VoiceActivationDetector`, voiceActivation.js)

Timers are modelled by absolute deadlines in milliseconds; `none` means
the timer is not armed. Constants from the constructor:
speechDuration 500, silenceDuration 3000, inactivityTimeout 20000.
-/

/-- Gate state: the `isListening` / `isSpeechDetected` flags and the three
`setTimeout` handles held by the detector. -/
structure VadState where
  isListening : Bool
  isSpeechDetected : Bool
  speechDeadline : Option Nat
  silenceDeadline : Option Nat
  inactivityDeadline : Option Nat
deriving DecidableEq, Repr

/-- Events delivered to the orchestrator callbacks: `onSpeechStart` and
`onSpeechEnd` (the inactivity timer also calls `onSpeechEnd`). -/
inductive VadEvent
  | speechStart
  | speechEnd
deriving DecidableEq, Repr

/-- The state right after `startListening` at time 0 (lines 34-63):
listening, no speech, only the inactivity timer armed. -/
def initialVad : VadState :=
  { isListening := true, isSpeechDetected := false, speechDeadline := none,
    silenceDeadline := none, inactivityDeadline := some 20000 }

/-- The three `setTimeout` handles of the detector. -/
inductive TimerTag
  | speechT
  | silenceT
  | inactivityT
deriving DecidableEq, Repr

/-- Which armed timer with a deadline strictly before `t` fires first,
by deadline order as the event loop would run them. -/
def earliestDue (s : VadState) (t : Nat) : Option TimerTag :=
  let cand1 := match s.speechDeadline with
    | some d => if d < t then some (d, TimerTag.speechT) else none
    | none => none
  let cand2 := match s.silenceDeadline with
    | some d => if d < t then some (d, TimerTag.silenceT) else none
    | none => none
  let cand3 := match s.inactivityDeadline with
    | some d => if d < t then some (d, TimerTag.inactivityT) else none
    | none => none
  let best := fun (a b : Option (Nat × TimerTag)) =>
    match a, b with
    | none, b2 => b2
    | a2, none => a2
    | some (da, ia), some (db, ib) => if db < da then some (db, ib) else some (da, ia)
  match best (best cand1 cand2) cand3 with
  | some (_, i) => some i
  | none => none

/-- Fire one timer callback (voiceActivation.js lines 142-150, 165-173,
179-184): each clears its own handle; the speech-confirm callback sets
`isSpeechDetected` and emits start, the silence-confirm callback clears
it and emits end, the inactivity callback only emits end. -/
def fireTimer (s : VadState) : TimerTag → VadState × VadEvent
  | TimerTag.speechT =>
    ({ s with isSpeechDetected := true, speechDeadline := none }, VadEvent.speechStart)
  | TimerTag.silenceT =>
    ({ s with isSpeechDetected := false, silenceDeadline := none }, VadEvent.speechEnd)
  | TimerTag.inactivityT =>
    ({ s with inactivityDeadline := none }, VadEvent.speechEnd)

/-- Fire all timers due strictly before time `t`, earliest first. No
callback arms a new timer, so at most three can fire. -/
def fireDueAux : Nat → VadState → Nat → VadState × List VadEvent
  | 0, s, _ => (s, [])
  | fuel + 1, s, t =>
    match earliestDue s t with
    | none => (s, [])
    | some i =>
      let r1 := fireTimer s i
      let r2 := fireDueAux fuel r1.1 t
      (r2.1, r1.2 :: r2.2)

/-- Timer expirations that happen before the event at time `t` runs. -/
def fireDue (s : VadState) (t : Nat) : VadState × List VadEvent :=
  fireDueAux 3 s t

/-- `handleSpeechDetected` (lines 129-153) for a loud chunk at time `t`:
re-arm the inactivity timer, cancel the silence-confirm timer, and if no
speech is confirmed yet and no speech-confirm timer pends, arm one for
`t + 500`. -/
def handleSpeechDetected (s : VadState) (t : Nat) : VadState :=
  let s1 := { s with inactivityDeadline := some (t + 20000), silenceDeadline := none }
  if s1.isSpeechDetected = false ∧ s1.speechDeadline = none then
    { s1 with speechDeadline := some (t + 500) }
  else s1

/-- `handleSilenceDetected` (lines 155-176) for a quiet chunk at time `t`:
cancel the speech-confirm timer, and if speech is confirmed and no
silence-confirm timer pends, arm one for `t + 3000`. -/
def handleSilenceDetected (s : VadState) (t : Nat) : VadState :=
  let s1 := { s with speechDeadline := none }
  if s1.isSpeechDetected = true ∧ s1.silenceDeadline = none then
    { s1 with silenceDeadline := some (t + 3000) }
  else s1

/-- `processAudioChunk` (lines 101-115) for a chunk arriving at time `t`,
preceded by any timer callbacks already due: `loud` is the result of the
RMS threshold comparison. -/
def chunkStep (s : VadState) (loud : Bool) (t : Nat) : VadState × List VadEvent :=
  let r := fireDue s t
  ((if loud then handleSpeechDetected r.1 t else handleSilenceDetected r.1 t), r.2)

/-- `stopListening` (lines 65-99): clear both flags and all three timers
(idempotent: a second call is a no-op). -/
def stopListening (s : VadState) : VadState :=
  if s.isListening = false then s
  else { isListening := false, isSpeechDetected := false, speechDeadline := none,
         silenceDeadline := none, inactivityDeadline := none }

/-- Feed classified chunks arriving at the fixed interval `delta`,
the chunk of index `j` at time `j * delta`. -/
def runVadFrom (s : VadState) (delta : Nat) (j : Nat) : List Bool → VadState × List VadEvent
  | [] => (s, [])
  | c :: cs =>
    let r1 := chunkStep s c (j * delta)
    let r2 := runVadFrom r1.1 delta (j + 1) cs
    (r2.1, r1.2 ++ r2.2)

/-- Run a chunk sequence from `startListening`, chunks at times
0, delta, 2 * delta, .... -/
def runVad (delta : Nat) (chunks : List Bool) : VadState × List VadEvent :=
  runVadFrom initialVad delta 0 chunks

/-- Count of emitted speech-start events. -/
def countStart (es : List VadEvent) : Nat :=
  es.countP fun e => decide (e = VadEvent.speechStart)

/-- States of the gate reachable from `startListening` by chunk arrivals
(at any times), bare timer expirations, and `stopListening` calls. -/
inductive VadReach : VadState → Prop
  | init : VadReach initialVad
  | chunk (s : VadState) (loud : Bool) (t : Nat) :
      VadReach s → VadReach (chunkStep s loud t).1
  | tick (s : VadState) (t : Nat) :
      VadReach s → VadReach (fireDue s t).1
  | stop (s : VadState) :
      VadReach s → VadReach (stopListening s)

/-! ## Concrete states and action discriminators used in the theorems -/

/-- All handler slots registered (the orchestrator in index.js registers
every slot it uses). -/
def allHandlers : Handlers :=
  { onConnect := true, onDisconnect := true, onError := true,
    onAudioReceived := true, onTranscriptReceived := true,
    onAgentResponse := true, onPing := true, onToolCall := true,
    onVadScore := true }

/-- An engine whose reconnect counter has reached the configured cap
(config.websocket: maxReconnectAttempts = 5, reconnectDelay = 2000). -/
def engineAtCap : EngineState :=
  { ws := some WsReadyState.closed, isConnected := false, reconnectAttempts := 5,
    maxReconnectAttempts := 5, reconnectDelay := 2000, conversationId := none,
    handlers := allHandlers }

/-- A disconnected engine (socket closed, `isConnected` cleared). -/
def engineDisconnected : EngineState :=
  { ws := some WsReadyState.closed, isConnected := false, reconnectAttempts := 0,
    maxReconnectAttempts := 5, reconnectDelay := 2000, conversationId := none,
    handlers := allHandlers }

/-- An engine with an established, open connection. -/
def engineOpenState : EngineState :=
  { ws := some WsReadyState.wsOpen, isConnected := true, reconnectAttempts := 0,
    maxReconnectAttempts := 5, reconnectDelay := 2000,
    conversationId := some "conv-1", handlers := allHandlers }

/-- Recognises a scheduled reconnection attempt among engine actions. -/
def isScheduleReconnect : EngineAction → Bool
  | EngineAction.scheduleReconnect _ => true
  | _ => false

/-- Recognises an outbound socket send among engine actions. -/
def isSendAction : EngineAction → Bool
  | EngineAction.send _ => true
  | _ => false

/-! ## Theorems: helper induction principles -/

/-- Induction on a list two elements at a time (shape of `readSamples`
and `monoSamples`). -/
def pairInduction {α : Type} {P : List α → Prop} (h0 : P []) (h1 : ∀ x, P [x])
    (h2 : ∀ x y rest, P rest → P (x :: y :: rest)) : ∀ b, P b
  | [] => h0
  | [x] => h1 x
  | x :: y :: rest => h2 x y rest (pairInduction h0 h1 h2 rest)

/-- Induction on a list three elements at a time (shape of `downsample3`). -/
def tripleInduction {α : Type} {P : List α → Prop} (h0 : P []) (h1 : ∀ x, P [x])
    (h2 : ∀ x y, P [x, y]) (h3 : ∀ x y z rest, P rest → P (x :: y :: z :: rest)) :
    ∀ b, P b
  | [] => h0
  | [x] => h1 x
  | [x, y] => h2 x y
  | x :: y :: z :: rest => h3 x y z rest (tripleInduction h0 h1 h2 h3 rest)

/-! ## Theorems: the 16-bit codec -/

/-- A signed 16-bit sample value. -/
def int16range (v : Int) : Prop := -32768 ≤ v ∧ v ≤ 32767

instance (v : Int) : Decidable (int16range v) := by
  unfold int16range; infer_instance

theorem decodeInt16_range (lo hi : Fin 256) : int16range (decodeInt16 lo hi) := by
  have h1 := lo.isLt
  have h2 := hi.isLt
  simp only [decodeInt16, int16range]
  split <;> omega

theorem decodeAt_range (b : Buffer) (i : Nat) : int16range (decodeAt b i) :=
  decodeInt16_range _ _

theorem decodeAt_cons_cons (a b : Fin 256) (l : Buffer) (j : Nat) :
    decodeAt (a :: b :: l) (j + 2) = decodeAt l j := by
  simp [decodeAt, List.getD_cons_succ, Nat.add_assoc]

theorem decodeAt_encode_append (v : Int) (h : int16range v) (rest : Buffer) :
    decodeAt (encodeInt16 v ++ rest) 0 = v := by
  obtain ⟨h1, h2⟩ := h
  simp only [encodeInt16, decodeAt, decodeInt16, List.cons_append, List.nil_append,
    List.getD_cons_zero, List.getD_cons_succ]
  split <;> omega

/-! ## Theorems: sample-read loop -/

theorem readSamples_spec (b : Buffer) (h : b.length % 2 = 0) :
    ∃ l, readSamples b = some l ∧ l.length = b.length / 2 ∧
      ∀ k, 2 * k < b.length → l.getD k 0 = decodeAt b (2 * k) := by
  induction b using pairInduction with
  | h0 => exact ⟨[], rfl, rfl, by intro k hk; simp at hk⟩
  | h1 x => simp at h
  | h2 x y rest ih =>
    have hr : rest.length % 2 = 0 := by simp at h; omega
    obtain ⟨l, hl, hlen, hidx⟩ := ih hr
    refine ⟨decodeInt16 x y :: l, by simp [readSamples, hl], by simp [hlen]; omega, ?_⟩
    intro k hk
    match k with
    | 0 => simp [decodeAt]
    | k + 1 =>
      have hk2 : 2 * k < rest.length := by simp at hk; omega
      have : 2 * (k + 1) = 2 * k + 2 := by ring
      rw [this, decodeAt_cons_cons]
      simpa using hidx k hk2

theorem readSamples_odd (b : Buffer) (h : b.length % 2 = 1) :
    readSamples b = none := by
  induction b using pairInduction with
  | h0 => simp at h
  | h1 x => rfl
  | h2 x y rest ih =>
    have hr : rest.length % 2 = 1 := by simp at h; omega
    simp [readSamples, ih hr]

theorem readSamples_range (b : Buffer) (l : List Int) (h : readSamples b = some l) :
    ∀ x ∈ l, int16range x := by
  induction b using pairInduction generalizing l with
  | h0 =>
    simp only [readSamples, Option.some.injEq] at h
    subst h
    intro x hx
    simp at hx
  | h1 x => simp [readSamples] at h
  | h2 x y rest ih =>
    simp only [readSamples] at h
    cases hr : readSamples rest with
    | none => rw [hr] at h; simp at h
    | some l2 =>
      rw [hr] at h
      simp only [Option.some.injEq] at h
      subst h
      intro z hz
      rcases List.mem_cons.mp hz with hz | hz
      · subst hz; exact decodeInt16_range x y
      · exact ih l2 hr z hz
/-! ## Theorems: downmix, decimation, output writes -/

theorem getD_int16range (xs : List Int) (k : Nat)
    (h : ∀ x ∈ xs, int16range x) : int16range (xs.getD k 0) := by
  induction xs generalizing k with
  | nil => simp [int16range]
  | cons x rest ih =>
    match k with
    | 0 => exact h x (List.mem_cons_self x rest)
    | k + 1 =>
      simp only [List.getD_cons_succ]
      exact ih k (fun z hz => h z (List.mem_cons_of_mem x hz))

theorem avgChannels_range (l r : Int) (hl : int16range l) (hr : int16range r) :
    int16range (avgChannels l r) := by
  simp only [int16range, avgChannels] at *
  omega

theorem monoSamples_length (xs : List Int) :
    (monoSamples xs).length = (xs.length + 1) / 2 := by
  induction xs using pairInduction with
  | h0 => rfl
  | h1 x => simp [monoSamples]
  | h2 x y rest ih => simp only [monoSamples, List.length_cons, ih]; omega

theorem monoSamples_getD (xs : List Int) (k : Nat) (h : 2 * k < xs.length) :
    (monoSamples xs).getD k 0 = avgChannels (xs.getD (2 * k) 0) (xs.getD (2 * k + 1) 0) := by
  induction xs using pairInduction generalizing k with
  | h0 => simp at h
  | h1 x =>
    match k with
    | 0 => rfl
    | k + 1 => simp at h
  | h2 x y rest ih =>
    match k with
    | 0 => rfl
    | k + 1 =>
      have hk : 2 * k < rest.length := by simp at h; omega
      have e1 : 2 * (k + 1) = 2 * k + 1 + 1 := by ring
      have e2 : 2 * (k + 1) + 1 = 2 * k + 1 + 1 + 1 := by ring
      simp only [monoSamples, List.getD_cons_succ, e1, e2]
      exact ih k hk

theorem monoSamples_range (xs : List Int) (h : ∀ x ∈ xs, int16range x) :
    ∀ y ∈ monoSamples xs, int16range y := by
  induction xs using pairInduction with
  | h0 => simp [monoSamples]
  | h1 x =>
    intro y hy
    simp only [monoSamples, List.mem_singleton] at hy
    subst hy
    exact avgChannels_range _ _ (h x (by simp)) (by simp [int16range])
  | h2 x y rest ih =>
    intro z hz
    simp only [monoSamples, List.mem_cons] at hz
    rcases hz with hz | hz
    · subst hz
      exact avgChannels_range _ _ (h x (by simp)) (h y (by simp))
    · exact ih (fun w hw => h w (List.mem_cons_of_mem _ (List.mem_cons_of_mem _ hw))) z hz

theorem downsample3_length (xs : List Int) :
    (downsample3 xs).length = (xs.length + 2) / 3 := by
  induction xs using tripleInduction with
  | h0 => rfl
  | h1 x => simp [downsample3]
  | h2 x y => simp [downsample3]
  | h3 x y z rest ih => simp only [downsample3, List.length_cons, ih]; omega

theorem downsample3_getD (xs : List Int) (k : Nat) (h : 3 * k < xs.length) :
    (downsample3 xs).getD k 0 = xs.getD (3 * k) 0 := by
  induction xs using tripleInduction generalizing k with
  | h0 => simp at h
  | h1 x =>
    match k with
    | 0 => rfl
    | k + 1 => simp only [List.length_cons, List.length_nil] at h; omega
  | h2 x y =>
    match k with
    | 0 => rfl
    | k + 1 => simp only [List.length_cons, List.length_nil] at h; omega
  | h3 x y z rest ih =>
    match k with
    | 0 => rfl
    | k + 1 =>
      have hk : 3 * k < rest.length := by simp at h; omega
      have e1 : 3 * (k + 1) = 3 * k + 1 + 1 + 1 := by ring
      simp only [downsample3, List.getD_cons_succ, e1]
      exact ih k hk

theorem downsample3_subset (xs : List Int) : ∀ x ∈ downsample3 xs, x ∈ xs := by
  induction xs using tripleInduction with
  | h0 => simp [downsample3]
  | h1 x => simp [downsample3]
  | h2 x y => simp [downsample3]
  | h3 x y z rest ih =>
    intro w hw
    simp only [downsample3, List.mem_cons] at hw
    rcases hw with hw | hw
    · simp [hw]
    · have := ih w hw
      simp [List.mem_cons, this]

theorem writeAllSamples_ok (xs : List Int) (h : ∀ v ∈ xs, int16range v) :
    ∃ bs, writeAllSamples xs = some bs := by
  induction xs with
  | nil => exact ⟨[], rfl⟩
  | cons v rest ih =>
    obtain ⟨bs, hbs⟩ := ih (fun w hw => h w (List.mem_cons_of_mem v hw))
    have hv := h v (List.mem_cons_self v rest)
    exact ⟨encodeInt16 v ++ bs, by simp [writeAllSamples, hbs, int16range] at hv ⊢; simp [hv]⟩

theorem writeAllSamples_length (xs : List Int) (bs : Buffer)
    (h : writeAllSamples xs = some bs) : bs.length = 2 * xs.length := by
  induction xs generalizing bs with
  | nil =>
    simp only [writeAllSamples, Option.some.injEq] at h
    simp [← h]
  | cons v rest ih =>
    simp only [writeAllSamples] at h
    split at h
    · cases hr : writeAllSamples rest with
      | none => rw [hr] at h; simp at h
      | some bs2 =>
        rw [hr] at h
        simp only [Option.some.injEq] at h
        subst h
        simp only [List.length_append, ih bs2 hr, encodeInt16, List.length_cons,
          List.length_nil]
        ring
    · simp at h

theorem writeAllSamples_decode (xs : List Int) (bs : Buffer)
    (h : writeAllSamples xs = some bs) :
    ∀ k, k < xs.length → decodeAt bs (2 * k) = xs.getD k 0 := by
  induction xs generalizing bs with
  | nil => intro k hk; simp at hk
  | cons v rest ih =>
    simp only [writeAllSamples] at h
    split at h
    case isTrue hv =>
      cases hr : writeAllSamples rest with
      | none => rw [hr] at h; simp at h
      | some bs2 =>
        rw [hr] at h
        simp only [Option.some.injEq] at h
        subst h
        intro k hk
        match k with
        | 0 =>
          simpa using decodeAt_encode_append v hv bs2
        | k + 1 =>
          have e1 : 2 * (k + 1) = 2 * k + 2 := by ring
          have hk2 : k < rest.length := by simp at hk; omega
          simp only [encodeInt16, List.cons_append, List.nil_append, e1,
            decodeAt_cons_cons, List.getD_cons_succ]
          exact ih bs2 hr k hk2
    · simp at h

/-! ## Theorems: sample converter claims -/

theorem convertBody_even (input : Buffer) (h : input.length % 2 = 0) :
    ∃ out, convertBody input = some out := by
  obtain ⟨samples, hs, hslen, hsidx⟩ := readSamples_spec input h
  have hrange := readSamples_range input samples hs
  have hmono := monoSamples_range samples hrange
  have houts : ∀ v ∈ downsample3 (monoSamples samples), int16range v :=
    fun v hv => hmono v (downsample3_subset _ v hv)
  obtain ⟨bs, hbs⟩ := writeAllSamples_ok _ houts
  exact ⟨bs, by simp only [convertBody, hs]; exact hbs⟩

/-- Claim C10: on any input on which the conversion body raises (in
particular every buffer of odd byte length, whose final 16-bit read is out
of bounds), `convertAudioFormat` catches the exception and returns the
original input buffer unchanged, still unconverted. -/
theorem claim_c10_catch_returns_input (input : Buffer) :
    (convertBody input = none → convertAudioFormat input = input) ∧
    (input.length % 2 = 1 → convertBody input = none) := by
  constructor
  · intro h
    simp only [convertAudioFormat, h]
  · intro h
    simp only [convertBody, readSamples_odd input h]

theorem claim_c10_witness :
    convertBody [0, 0, 1] = none ∧ convertAudioFormat [0, 0, 1] = [0, 0, 1] :=
  ⟨(claim_c10_catch_returns_input [0, 0, 1]).2 (by decide),
   (claim_c10_catch_returns_input [0, 0, 1]).1
     ((claim_c10_catch_returns_input [0, 0, 1]).2 (by decide))⟩

/-- Claim C4, counterexample: on the truncated buffer `[0, 0, 1]` the
converter returns the input itself, not the conversion of the longest
whole-frame prefix demanded by the claim (and its result type carries no
fault flag at all). -/
theorem claim_c4_counterexample :
    convertAudioFormat [0, 0, 1] = [0, 0, 1] ∧
    specConvertWholeFramesOnly [0, 0, 1] = [] ∧
    convertAudioFormat [0, 0, 1] ≠ specConvertWholeFramesOnly [0, 0, 1] := by
  decide

/-- Claim C4 as amended: `convertAudioFormat` is total (never raises); on
every even-length input the body succeeds and its converted output is
returned, while on malformed (odd-length) input the body raises
internally and the original buffer is returned unchanged — there is no
longest-prefix recovery and no result flag. -/
theorem claim_c4_amended_never_throws (input : Buffer) :
    (input.length % 2 = 0 → convertBody input = some (convertAudioFormat input)) ∧
    (input.length % 2 ≠ 0 → convertBody input = none ∧ convertAudioFormat input = input) := by
  constructor
  · intro h
    obtain ⟨out, hout⟩ := convertBody_even input h
    rw [hout]
    simp only [convertAudioFormat, hout]
  · intro h
    have h1 : input.length % 2 = 1 := by omega
    have hn : convertBody input = none := by
      simp only [convertBody, readSamples_odd input h1]
    exact ⟨hn, by simp only [convertAudioFormat, hn]⟩

theorem claim_c4_witness :
    convertBody [2, 0, 4, 0] = some (convertAudioFormat [2, 0, 4, 0]) ∧
    (convertBody [0, 0, 1, 5, 9] = none ∧
      convertAudioFormat [0, 0, 1, 5, 9] = [0, 0, 1, 5, 9]) :=
  ⟨(claim_c4_amended_never_throws [2, 0, 4, 0]).1 (by decide),
   (claim_c4_amended_never_throws [0, 0, 1, 5, 9]).2 (by decide)⟩

/-- Claim C5: on a well-formed stereo buffer (length a multiple of the
4-byte frame), the output is mono 16-bit little-endian with sample count
`ceil(frames / 3)` — within one of `floor(frames x 16000 / 48000)` — and
output sample `j` is the rounded unweighted average of the two channel
values of input frame `3 * j` (integer decimation by 3). -/
theorem claim_c5_wellformed_conversion (input : Buffer) (h4 : input.length % 4 = 0) :
    (convertAudioFormat input).length = 2 * ((input.length / 4 + 2) / 3) ∧
    input.length / 4 / 3 ≤ (input.length / 4 + 2) / 3 ∧
    (input.length / 4 + 2) / 3 ≤ input.length / 4 / 3 + 1 ∧
    ∀ j, 3 * j < input.length / 4 →
      decodeAt (convertAudioFormat input) (2 * j) =
        avgChannels (decodeAt input (12 * j)) (decodeAt input (12 * j + 2)) := by
  have h2 : input.length % 2 = 0 := by omega
  obtain ⟨samples, hs, hslen, hsidx⟩ := readSamples_spec input h2
  have hrange := readSamples_range input samples hs
  have hmono := monoSamples_range samples hrange
  have houts : ∀ v ∈ downsample3 (monoSamples samples), int16range v :=
    fun v hv => hmono v (downsample3_subset _ v hv)
  obtain ⟨bs, hbs⟩ := writeAllSamples_ok _ houts
  have hbody : convertBody input = some bs := by
    simp only [convertBody, hs]; exact hbs
  have hca : convertAudioFormat input = bs := by
    simp only [convertAudioFormat, hbody]
  have hmlen : (monoSamples samples).length = input.length / 4 := by
    rw [monoSamples_length, hslen]; omega
  have hdlen : (downsample3 (monoSamples samples)).length = (input.length / 4 + 2) / 3 := by
    rw [downsample3_length, hmlen]
  have hblen : bs.length = 2 * ((input.length / 4 + 2) / 3) := by
    rw [writeAllSamples_length _ _ hbs, hdlen]
  refine ⟨by rw [hca]; exact hblen, by omega, by omega, ?_⟩
  intro j hj
  rw [hca]
  have hjd : j < (downsample3 (monoSamples samples)).length := by
    rw [hdlen]; omega
  have e0 : decodeAt bs (2 * j) = (downsample3 (monoSamples samples)).getD j 0 :=
    writeAllSamples_decode _ _ hbs j hjd
  have hjm : 3 * j < (monoSamples samples).length := by rw [hmlen]; omega
  have e1 : (downsample3 (monoSamples samples)).getD j 0 =
      (monoSamples samples).getD (3 * j) 0 := downsample3_getD _ j hjm
  have h6j : 2 * (3 * j) < samples.length := by rw [hslen]; omega
  have e2 : (monoSamples samples).getD (3 * j) 0 =
      avgChannels (samples.getD (2 * (3 * j)) 0) (samples.getD (2 * (3 * j) + 1) 0) :=
    monoSamples_getD _ _ h6j
  have hL : 2 * (2 * (3 * j)) < input.length := by omega
  have hR : 2 * (2 * (3 * j) + 1) < input.length := by omega
  have e3 := hsidx (2 * (3 * j)) hL
  have e4 := hsidx (2 * (3 * j) + 1) hR
  have n3 : 2 * (2 * (3 * j)) = 12 * j := by ring
  have n4 : 2 * (2 * (3 * j) + 1) = 12 * j + 2 := by ring
  rw [n3] at e3
  rw [n4] at e4
  rw [e0, e1, e2, e3, e4]

theorem claim_c5_witness :
    sampleInput12.length % 4 = 0 ∧
    ((convertAudioFormat sampleInput12).length = 2 * ((sampleInput12.length / 4 + 2) / 3) ∧
      sampleInput12.length / 4 / 3 ≤ (sampleInput12.length / 4 + 2) / 3 ∧
      (sampleInput12.length / 4 + 2) / 3 ≤ sampleInput12.length / 4 / 3 + 1 ∧
      ∀ j, 3 * j < sampleInput12.length / 4 →
        decodeAt (convertAudioFormat sampleInput12) (2 * j) =
          avgChannels (decodeAt sampleInput12 (12 * j)) (decodeAt sampleInput12 (12 * j + 2))) :=
  ⟨by decide, claim_c5_wellformed_conversion sampleInput12 (by decide)⟩

/-! ## Theorems: protocol engine claims -/

/-- Claim C1: an inbound keep-alive ping is answered with a pong carrying
the same correlation id as the first outbound action of the handler, with
only log lines before it and the registered ping-handler invocation
strictly after it. -/
theorem claim_c1_ping_pong_first (s : EngineState) (eventId : String)
    (hopen : s.ws = some WsReadyState.wsOpen) :
    ∃ pre post, (handleMessage s (InboundMessage.ping eventId)).2 =
        pre ++ EngineAction.send (OutboundMessage.pong eventId) :: post ∧
      (∀ a ∈ pre, ∃ msg, a = EngineAction.logLine msg) ∧
      (s.handlers.onPing = true → EngineAction.invoke "onPing" ∈ post) := by
  refine ⟨[EngineAction.logLine "Received message", EngineAction.logLine "Received ping"],
    (if s.handlers.onPing then [EngineAction.invoke "onPing"] else []), ?_, ?_, ?_⟩
  · simp [handleMessage, handlePing, sendMessage, hopen]
  · intro a ha
    simp only [List.mem_cons, List.not_mem_nil, or_false] at ha
    rcases ha with h | h
    · exact ⟨_, h⟩
    · exact ⟨_, h⟩
  · intro hp
    simp [hp]

theorem claim_c1_witness :
    engineOpenState.ws = some WsReadyState.wsOpen ∧
    ∃ pre post, (handleMessage engineOpenState (InboundMessage.ping "42")).2 =
        pre ++ EngineAction.send (OutboundMessage.pong "42") :: post ∧
      (∀ a ∈ pre, ∃ msg, a = EngineAction.logLine msg) ∧
      (engineOpenState.handlers.onPing = true →
        EngineAction.invoke "onPing" ∈ post) :=
  ⟨rfl, claim_c1_ping_pong_first engineOpenState "42" rfl⟩

theorem handleOpen_state (s : EngineState) :
    (handleOpen s).1 = { s with ws := some WsReadyState.wsOpen, isConnected := true, reconnectAttempts := 0 } := by
  simp [handleOpen, sendMessage]

theorem iterFail_fields (s : EngineState) (k : Nat)
    (h0 : s.reconnectAttempts = 0) (hk : k ≤ s.maxReconnectAttempts) :
    (iterFail s k).reconnectAttempts = k ∧
    (iterFail s k).maxReconnectAttempts = s.maxReconnectAttempts ∧
    (iterFail s k).reconnectDelay = s.reconnectDelay := by
  induction k with
  | zero => exact ⟨h0, rfl, rfl⟩
  | succ k ih =>
    obtain ⟨ha, hm, hd⟩ := ih (by omega)
    have hlt : (iterFail s k).reconnectAttempts < (iterFail s k).maxReconnectAttempts := by
      rw [ha, hm]; omega
    simp only [iterFail, handleDisconnection]
    rw [if_pos (by simpa using hlt)]
    simp [ha, hm, hd]

/-- Claim C2: a successful Open resets the attempt counter to 0, and
after `k - 1` further failures the `k`-th failure schedules the `k`-th
reconnection attempt with delay `reconnectDelay * k`. -/
theorem claim_c2_reconnect_backoff (s : EngineState) (k : Nat)
    (hk1 : 1 ≤ k) (hk2 : k ≤ s.maxReconnectAttempts) :
    (handleOpen s).1.reconnectAttempts = 0 ∧
    EngineAction.scheduleReconnect (s.reconnectDelay * k) ∈
      (handleDisconnection (iterFail (handleOpen s).1 (k - 1))).2 ∧
    (handleDisconnection (iterFail (handleOpen s).1 (k - 1))).1.reconnectAttempts = k := by
  have hopen := handleOpen_state s
  have h0 : (handleOpen s).1.reconnectAttempts = 0 := by rw [hopen]
  have hmax : (handleOpen s).1.maxReconnectAttempts = s.maxReconnectAttempts := by rw [hopen]
  have hdel : (handleOpen s).1.reconnectDelay = s.reconnectDelay := by rw [hopen]
  obtain ⟨ha, hm, hd⟩ := iterFail_fields (handleOpen s).1 (k - 1) h0 (by omega)
  have hlt : (iterFail (handleOpen s).1 (k - 1)).reconnectAttempts <
      (iterFail (handleOpen s).1 (k - 1)).maxReconnectAttempts := by
    rw [ha, hm, hmax]; omega
  refine ⟨h0, ?_, ?_⟩
  · simp only [handleDisconnection]
    rw [if_pos (by simpa using hlt)]
    simp [ha, hd, hdel]
    left
    omega
  · simp only [handleDisconnection]
    rw [if_pos (by simpa using hlt)]
    simp [ha]
    omega

theorem claim_c2_witness :
    1 ≤ 3 ∧ 3 ≤ engineOpenState.maxReconnectAttempts ∧
    ((handleOpen engineOpenState).1.reconnectAttempts = 0 ∧
      EngineAction.scheduleReconnect (engineOpenState.reconnectDelay * 3) ∈
        (handleDisconnection (iterFail (handleOpen engineOpenState).1 2)).2 ∧
      (handleDisconnection (iterFail (handleOpen engineOpenState).1 2)).1.reconnectAttempts = 3) :=
  ⟨by omega, by decide, claim_c2_reconnect_backoff engineOpenState 3 (by omega) (by decide)⟩

/-- Claim C3, counterexample: at the attempt cap the disconnection handler
schedules no reconnect — but it also invokes no registered fault handler
(`onError` is registered in this state and never called); the condition is
only logged. -/
theorem claim_c3_counterexample :
    engineAtCap.handlers.onError = true ∧
    (∀ a ∈ (handleDisconnection engineAtCap).2, a ≠ EngineAction.invoke "onError") ∧
    (∀ a ∈ (handleDisconnection engineAtCap).2, isScheduleReconnect a = false) ∧
    (handleDisconnection engineAtCap).2 =
      [EngineAction.invoke "onDisconnect",
       EngineAction.logError "Max reconnection attempts reached"] := by
  decide

/-- Claim C3 as amended: once the counter has reached the cap, a further
disconnection schedules no reconnection attempt and does not invoke the
registered error handler; it emits exactly one terminal error log line
(plus the usual disconnect-handler invocation). -/
theorem claim_c3_amended_cap_terminal (s : EngineState)
    (h : s.maxReconnectAttempts ≤ s.reconnectAttempts) :
    (handleDisconnection s).2 =
      (if s.handlers.onDisconnect then [EngineAction.invoke "onDisconnect"] else []) ++
        [EngineAction.logError "Max reconnection attempts reached"] ∧
    (∀ a ∈ (handleDisconnection s).2, isScheduleReconnect a = false) ∧
    (∀ a ∈ (handleDisconnection s).2, a ≠ EngineAction.invoke "onError") ∧
    ((handleDisconnection s).2.countP
      (fun a => decide (a = EngineAction.logError "Max reconnection attempts reached"))) = 1 ∧
    (handleDisconnection s).1.reconnectAttempts = s.reconnectAttempts := by
  have hcond : ¬ s.reconnectAttempts < s.maxReconnectAttempts := by omega
  have hacts : (handleDisconnection s).2 =
      (if s.handlers.onDisconnect then [EngineAction.invoke "onDisconnect"] else []) ++
        [EngineAction.logError "Max reconnection attempts reached"] := by
    simp [handleDisconnection, hcond]
  have hstate : (handleDisconnection s).1.reconnectAttempts = s.reconnectAttempts := by
    simp [handleDisconnection, hcond]
  refine ⟨hacts, ?_, ?_, ?_, hstate⟩
  · rw [hacts]
    by_cases hd : s.handlers.onDisconnect <;> simp [hd, isScheduleReconnect]
  · rw [hacts]
    by_cases hd : s.handlers.onDisconnect <;> simp [hd]
  · rw [hacts]
    by_cases hd : s.handlers.onDisconnect <;> simp [hd]

theorem claim_c3_witness :
    engineAtCap.maxReconnectAttempts ≤ engineAtCap.reconnectAttempts ∧
    ((handleDisconnection engineAtCap).2 =
      (if engineAtCap.handlers.onDisconnect then [EngineAction.invoke "onDisconnect"] else []) ++
        [EngineAction.logError "Max reconnection attempts reached"] ∧
    (∀ a ∈ (handleDisconnection engineAtCap).2, isScheduleReconnect a = false) ∧
    (∀ a ∈ (handleDisconnection engineAtCap).2, a ≠ EngineAction.invoke "onError") ∧
    ((handleDisconnection engineAtCap).2.countP
      (fun a => decide (a = EngineAction.logError "Max reconnection attempts reached"))) = 1 ∧
    (handleDisconnection engineAtCap).1.reconnectAttempts = engineAtCap.reconnectAttempts) :=
  ⟨by decide, claim_c3_amended_cap_terminal engineAtCap (by decide)⟩

/-- Claim C6, counterexample: `sendAudioChunk` returns `undefined` both
when it drops a chunk (engine disconnected) and when it sends one (engine
open), so it does not return a failure indication; only `sendMessage`
returns `false`. -/
theorem claim_c6_counterexample :
    (sendAudioChunk engineDisconnected "QUJD").2.1 = none ∧
    (sendAudioChunk engineOpenState "QUJD").2.1 = none ∧
    (none : Option Bool) ≠ some false ∧
    (sendMessage engineDisconnected (OutboundMessage.userMessage "hi")).2.1 = false := by
  decide

/-- Claim C6 as amended: with the socket not Open and the engine marked
disconnected, `sendMessage` returns false without sending and leaves the
state unchanged; `sendAudioChunk` silently drops the chunk — no send, no
state change, no action at all — returning `undefined` (no failure flag).
There is no queue of pending sends anywhere in the engine state to grow. -/
theorem claim_c6_amended_send_rejection (s : EngineState) (m : OutboundMessage)
    (data : String) (hws : s.ws ≠ some WsReadyState.wsOpen)
    (hconn : s.isConnected = false) :
    (sendMessage s m).1 = s ∧
    (sendMessage s m).2.1 = false ∧
    (∀ a ∈ (sendMessage s m).2.2, isSendAction a = false) ∧
    (sendAudioChunk s data).1 = s ∧
    (sendAudioChunk s data).2.1 = none ∧
    (sendAudioChunk s data).2.2 = [] := by
  have hsm : sendMessage s m =
      (s, false, [EngineAction.logError "Cannot send message: WebSocket not connected"]) := by
    simp [sendMessage, hws]
  have hsa : sendAudioChunk s data = (s, none, []) := by
    simp [sendAudioChunk, hconn]
  rw [hsm, hsa]
  refine ⟨rfl, rfl, ?_, rfl, rfl, rfl⟩
  intro a ha
  simp only [List.mem_singleton] at ha
  subst ha
  rfl

theorem claim_c6_witness :
    engineDisconnected.ws ≠ some WsReadyState.wsOpen ∧
    engineDisconnected.isConnected = false ∧
    ((sendMessage engineDisconnected (OutboundMessage.userAudioChunk "QUJD")).1 = engineDisconnected ∧
    (sendMessage engineDisconnected (OutboundMessage.userAudioChunk "QUJD")).2.1 = false ∧
    (∀ a ∈ (sendMessage engineDisconnected (OutboundMessage.userAudioChunk "QUJD")).2.2,
      isSendAction a = false) ∧
    (sendAudioChunk engineDisconnected "QUJD").1 = engineDisconnected ∧
    (sendAudioChunk engineDisconnected "QUJD").2.1 = none ∧
    (sendAudioChunk engineDisconnected "QUJD").2.2 = []) :=
  ⟨by decide, rfl,
   claim_c6_amended_send_rejection engineDisconnected
     (OutboundMessage.userAudioChunk "QUJD") "QUJD" (by decide) rfl⟩

/-! ## Theorems: playback queue claims -/

/-- Claim C7, counterexample: after a render fails (`aplay` nonzero exit),
queued chunks stall, and a chunk enqueued afterwards starts rendering
ahead of them — chunk "c" (enqueued third) renders before chunk "b"
(enqueued second), violating strict FIFO order. -/
theorem claim_c7_counterexample :
    (runPlayer initialPlayer
      [PlayEvent.enqueue "a", PlayEvent.enqueue "b", PlayEvent.doneErr,
       PlayEvent.enqueue "c", PlayEvent.doneOk, PlayEvent.doneOk]).2 = ["a", "c", "b"] ∧
    enqueuedOf
      [PlayEvent.enqueue "a", PlayEvent.enqueue "b", PlayEvent.doneErr,
       PlayEvent.enqueue "c", PlayEvent.doneOk, PlayEvent.doneOk] = ["a", "b", "c"] ∧
    (["a", "c", "b"] : List String) ≠ ["a", "b", "c"] := by
  decide

theorem runPlayer_fifo (es : List PlayEvent) (s : PlayerState)
    (hinv : s.isPlaying = false → s.audioQueue = [])
    (herr : ∀ e ∈ es, e ≠ PlayEvent.doneErr) :
    (runPlayer s es).2 ++ (runPlayer s es).1.audioQueue = s.audioQueue ++ enqueuedOf es ∧
    ((runPlayer s es).1.isPlaying = false → (runPlayer s es).1.audioQueue = []) := by
  induction es generalizing s with
  | nil =>
    refine ⟨?_, hinv⟩
    simp [runPlayer, enqueuedOf]
  | cons e es ih =>
    have herr2 : ∀ x ∈ es, x ≠ PlayEvent.doneErr :=
      fun x hx => herr x (List.mem_cons_of_mem e hx)
    match e with
    | PlayEvent.enqueue c =>
      by_cases hc : c = ""
      · subst hc
        have hstep : playerStep s (PlayEvent.enqueue "") = (s, []) := by
          simp [playerStep, playAudio]
        obtain ⟨h1, h2⟩ := ih s hinv herr2
        simp only [runPlayer, hstep]
        refine ⟨?_, h2⟩
        simpa [enqueuedOf] using h1
      · by_cases hp : s.isPlaying
        · have hstep : playerStep s (PlayEvent.enqueue c) =
              ({ s with audioQueue := s.audioQueue ++ [c] }, []) := by
            simp [playerStep, playAudio, hc, hp]
          obtain ⟨h1, h2⟩ :=
            ih { s with audioQueue := s.audioQueue ++ [c] }
              (by intro h; exact absurd h (by simp [hp])) herr2
          simp only [runPlayer, hstep]
          constructor
          · simp only [List.nil_append]
            rw [h1]
            simp [enqueuedOf, hc]
          · exact h2
        · have hpf : s.isPlaying = false := by simpa using hp
          have hq : s.audioQueue = [] := hinv hpf
          have hstep : playerStep s (PlayEvent.enqueue c) =
              ({ s with isPlaying := true }, [c]) := by
            simp [playerStep, playAudio, hc, hpf]
          obtain ⟨h1, h2⟩ := ih { s with isPlaying := true } (by intro h; simp at h) herr2
          simp only [runPlayer, hstep]
          constructor
          · simp only [List.cons_append, List.nil_append]
            rw [h1]
            simp [enqueuedOf, hc, hq]
          · exact h2
    | PlayEvent.doneOk =>
      by_cases hp : s.isPlaying
      · match hq : s.audioQueue with
        | [] =>
          have hstep : playerStep s PlayEvent.doneOk = ({ s with isPlaying := false }, []) := by
            simp [playerStep, playbackDone, hp, hq]
          obtain ⟨h1, h2⟩ := ih { s with isPlaying := false } (by intro _; simp [hq]) herr2
          simp only [runPlayer, hstep]
          refine ⟨?_, h2⟩
          simp only [List.nil_append]
          rw [h1]
          simp [hq, enqueuedOf]
        | c :: rest =>
          have hstep : playerStep s PlayEvent.doneOk =
              ({ s with isPlaying := true, audioQueue := rest }, [c]) := by
            simp [playerStep, playbackDone, hp, hq]
          obtain ⟨h1, h2⟩ :=
            ih { s with isPlaying := true, audioQueue := rest } (by intro h; simp at h) herr2
          simp only [runPlayer, hstep]
          refine ⟨?_, h2⟩
          simp only [List.cons_append, List.nil_append]
          rw [h1]
          simp [hq, enqueuedOf]
      · have hpf : s.isPlaying = false := by simpa using hp
        have hstep : playerStep s PlayEvent.doneOk = (s, []) := by
          simp [playerStep, hpf]
        obtain ⟨h1, h2⟩ := ih s hinv herr2
        simp only [runPlayer, hstep]
        refine ⟨?_, h2⟩
        simpa [enqueuedOf] using h1
    | PlayEvent.doneErr =>
      exact absurd rfl (herr PlayEvent.doneErr (List.mem_cons_self _ _))

/-- Claim C7 as amended: provided every render completes successfully
(no nonzero `aplay` exits), playback is strictly FIFO — the chunks whose
rendering has started, followed by the pending queue, equal the arrival
order exactly — and a chunk enqueued while nothing is rendering starts
rendering immediately. Render failures break this (see the
counterexample): the stalled queue is bypassed by the next enqueue. -/
theorem claim_c7_amended_fifo (es : List PlayEvent)
    (herr : ∀ e ∈ es, e ≠ PlayEvent.doneErr) :
    (runPlayer initialPlayer es).2 ++ (runPlayer initialPlayer es).1.audioQueue =
      enqueuedOf es ∧
    (∀ s c, s.isPlaying = false → c ≠ "" →
      playAudio s c = ({ s with isPlaying := true }, [c])) := by
  constructor
  · have h := runPlayer_fifo es initialPlayer (fun _ => rfl) herr
    simpa [initialPlayer] using h.1
  · intro s c hs hc
    simp [playAudio, hs, hc]

theorem claim_c7_witness :
    (∀ e ∈ ([PlayEvent.enqueue "a", PlayEvent.enqueue "b", PlayEvent.doneOk,
      PlayEvent.enqueue "c", PlayEvent.doneOk, PlayEvent.doneOk] : List PlayEvent),
      e ≠ PlayEvent.doneErr) ∧
    ((runPlayer initialPlayer [PlayEvent.enqueue "a", PlayEvent.enqueue "b", PlayEvent.doneOk,
        PlayEvent.enqueue "c", PlayEvent.doneOk, PlayEvent.doneOk]).2 ++
      (runPlayer initialPlayer [PlayEvent.enqueue "a", PlayEvent.enqueue "b", PlayEvent.doneOk,
        PlayEvent.enqueue "c", PlayEvent.doneOk, PlayEvent.doneOk]).1.audioQueue =
      enqueuedOf [PlayEvent.enqueue "a", PlayEvent.enqueue "b", PlayEvent.doneOk,
        PlayEvent.enqueue "c", PlayEvent.doneOk, PlayEvent.doneOk] ∧
    (∀ s c, s.isPlaying = false → c ≠ "" →
      playAudio s c = ({ s with isPlaying := true }, [c]))) :=
  ⟨by decide, claim_c7_amended_fifo _ (by decide)⟩

/-! ## Theorems: voice activity gate claims -/

/-- The mutual-exclusion property of the two confirm timers. -/
def timersExclusive (s : VadState) : Prop :=
  s.speechDeadline = none ∨ s.silenceDeadline = none

theorem fireTimer_exclusive (s : VadState) (tag : TimerTag)
    (h : timersExclusive s) : timersExclusive (fireTimer s tag).1 := by
  cases tag with
  | speechT => exact Or.inl rfl
  | silenceT => exact Or.inr rfl
  | inactivityT => exact h

theorem fireDueAux_exclusive (fuel : Nat) (s : VadState) (t : Nat)
    (h : timersExclusive s) : timersExclusive (fireDueAux fuel s t).1 := by
  induction fuel generalizing s with
  | zero => exact h
  | succ fuel ih =>
    simp only [fireDueAux]
    cases heq : earliestDue s t with
    | none => exact h
    | some tag => exact ih (fireTimer s tag).1 (fireTimer_exclusive s tag h)

theorem handleSpeechDetected_exclusive (s : VadState) (t : Nat) :
    timersExclusive (handleSpeechDetected s t) := by
  refine Or.inr ?_
  simp only [handleSpeechDetected]
  split <;> rfl

theorem handleSilenceDetected_exclusive (s : VadState) (t : Nat) :
    timersExclusive (handleSilenceDetected s t) := by
  refine Or.inl ?_
  simp only [handleSilenceDetected]
  split <;> rfl

theorem chunkStep_exclusive (s : VadState) (loud : Bool) (t : Nat) :
    timersExclusive (chunkStep s loud t).1 := by
  unfold chunkStep
  cases loud with
  | true => simpa using handleSpeechDetected_exclusive (fireDue s t).1 t
  | false => simpa using handleSilenceDetected_exclusive (fireDue s t).1 t

/-- Claim C9: in every state reachable from `startListening` by chunk
arrivals, timer expirations and `stopListening` calls, the speech-confirm
timer and the silence-confirm timer are never both pending. -/
theorem claim_c9_timer_exclusion (s : VadState) (h : VadReach s) :
    s.speechDeadline = none ∨ s.silenceDeadline = none := by
  induction h with
  | init => exact Or.inl rfl
  | chunk s loud t _ _ => exact chunkStep_exclusive s loud t
  | tick s t _ ih => exact fireDueAux_exclusive 3 s t ih
  | stop s _ ih =>
    unfold stopListening
    split
    · exact ih
    · exact Or.inl rfl

theorem claim_c9_witness :
    initialVad.speechDeadline = none ∨ initialVad.silenceDeadline = none :=
  claim_c9_timer_exclusion initialVad VadReach.init

theorem chunkStep_phaseA (delta j : Nat) (_hj : 1 ≤ j) (hle : j * delta ≤ 500) :
    chunkStep ⟨true, false, some 500, none, some ((j - 1) * delta + 20000)⟩ true (j * delta) =
    (⟨true, false, some 500, none, some (j * delta + 20000)⟩, []) := by
  have h1 : ¬ (500 < j * delta) := by omega
  have h2 : ¬ ((j - 1) * delta + 20000 < j * delta) := by omega
  simp [chunkStep, fireDue, fireDueAux, earliestDue, h1, h2, handleSpeechDetected]

theorem chunkStep_phaseA_quiet (delta j : Nat) (_hj : 1 ≤ j) (hle : j * delta ≤ 500) :
    chunkStep ⟨true, false, some 500, none, some ((j - 1) * delta + 20000)⟩ false (j * delta) =
    (⟨true, false, none, none, some ((j - 1) * delta + 20000)⟩, []) := by
  have h1 : ¬ (500 < j * delta) := by omega
  have h2 : ¬ ((j - 1) * delta + 20000 < j * delta) := by omega
  simp [chunkStep, fireDue, fireDueAux, earliestDue, h1, h2, handleSilenceDetected]

theorem chunkStep_phaseA_fire (delta j : Nat) (_hj : 1 ≤ j) (hgt : 500 < j * delta) :
    ∃ es, chunkStep ⟨true, false, some 500, none, some ((j - 1) * delta + 20000)⟩ true (j * delta) =
      (⟨true, true, none, none, some (j * delta + 20000)⟩, es) ∧ countStart es = 1 := by
  have hno : ¬ ((j - 1) * delta + 20000 < 500) := by omega
  by_cases hdue : (j - 1) * delta + 20000 < j * delta
  · refine ⟨[VadEvent.speechStart, VadEvent.speechEnd], ?_, by decide⟩
    simp [chunkStep, fireDue, fireDueAux, earliestDue, fireTimer, hgt, hdue, hno,
      handleSpeechDetected]
  · refine ⟨[VadEvent.speechStart], ?_, by decide⟩
    simp [chunkStep, fireDue, fireDueAux, earliestDue, fireTimer, hgt, hdue, hno,
      handleSpeechDetected]

theorem vad_phaseA_run (delta : Nat) (r : Nat) : ∀ j, 1 ≤ j →
    (j + r - 1) * delta ≤ 500 →
    runVadFrom ⟨true, false, some 500, none, some ((j - 1) * delta + 20000)⟩ delta j
      (List.replicate r true) =
    (⟨true, false, some 500, none, some ((j + r - 1) * delta + 20000)⟩, []) := by
  induction r with
  | zero =>
    intro j hj hb
    rw [show j + 0 - 1 = j - 1 from by omega]
    simp [runVadFrom]
  | succ r ih =>
    intro j hj hb
    have hmono : j * delta ≤ (j + (r + 1) - 1) * delta :=
      Nat.mul_le_mul (by omega) (le_refl delta)
    have hle : j * delta ≤ 500 := le_trans hmono hb
    have hb2 : (j + 1 + r - 1) * delta ≤ 500 := by
      rw [show j + 1 + r - 1 = j + (r + 1) - 1 from by omega]
      exact hb
    have ihj := ih (j + 1) (by omega) hb2
    simp only [Nat.add_sub_cancel] at ihj
    rw [List.replicate_succ]
    simp only [runVadFrom, chunkStep_phaseA delta j hj hle, ihj]
    rw [show j + 1 + r - 1 = j + (r + 1) - 1 from by omega]
    simp

theorem vad_phaseB_run (delta : Nat) (r : Nat) : ∀ j d,
    ∃ d2 es,
      runVadFrom ⟨true, true, none, none, some d⟩ delta j (List.replicate r true) =
        (⟨true, true, none, none, some d2⟩, es) ∧ countStart es = 0 := by
  induction r with
  | zero =>
    intro j d
    exact ⟨d, [], by simp [runVadFrom], rfl⟩
  | succ r ih =>
    intro j d
    obtain ⟨d2, es2, hrun, hcount⟩ := ih (j + 1) (j * delta + 20000)
    by_cases hdue : d < j * delta
    · have hstep : chunkStep ⟨true, true, none, none, some d⟩ true (j * delta) =
          (⟨true, true, none, none, some (j * delta + 20000)⟩, [VadEvent.speechEnd]) := by
        simp [chunkStep, fireDue, fireDueAux, earliestDue, fireTimer, hdue,
          handleSpeechDetected]
      refine ⟨d2, VadEvent.speechEnd :: es2, ?_, ?_⟩
      · rw [List.replicate_succ]
        simp only [runVadFrom, hstep, hrun]
        simp
      · simp only [countStart, List.countP_cons] at hcount ⊢
        simpa using hcount
    · have hstep : chunkStep ⟨true, true, none, none, some d⟩ true (j * delta) =
          (⟨true, true, none, none, some (j * delta + 20000)⟩, []) := by
        simp [chunkStep, fireDue, fireDueAux, earliestDue, hdue, handleSpeechDetected]
      refine ⟨d2, es2, ?_, hcount⟩
      rw [List.replicate_succ]
      simp only [runVadFrom, hstep, hrun]
      simp

theorem vad_phaseA_one_start (delta : Nat) (r : Nat) : ∀ j, 1 ≤ j →
    (j - 1) * delta ≤ 500 → 500 < (j + r - 1) * delta →
    countStart (runVadFrom ⟨true, false, some 500, none, some ((j - 1) * delta + 20000)⟩
      delta j (List.replicate r true)).2 = 1 := by
  induction r with
  | zero =>
    intro j hj hA hB
    rw [show j + 0 - 1 = j - 1 from by omega] at hB
    omega
  | succ r ih =>
    intro j hj hA hB
    by_cases hle : j * delta ≤ 500
    · have hB2 : 500 < (j + 1 + r - 1) * delta := by
        rw [show j + 1 + r - 1 = j + (r + 1) - 1 from by omega]
        exact hB
      have ihj := ih (j + 1) (by omega) (by simpa using hle) hB2
      simp only [Nat.add_sub_cancel] at ihj
      rw [List.replicate_succ]
      simp only [runVadFrom, chunkStep_phaseA delta j hj hle]
      simpa using ihj
    · have hgt : 500 < j * delta := by omega
      obtain ⟨es1, hstep, hcount1⟩ := chunkStep_phaseA_fire delta j hj hgt
      obtain ⟨d2, es2, hrun, hcount2⟩ := vad_phaseB_run delta r (j + 1) (j * delta + 20000)
      rw [List.replicate_succ]
      simp only [runVadFrom, hstep, hrun]
      simp only [countStart, List.countP_append] at hcount1 hcount2 ⊢
      simp [hcount1, hcount2]

theorem chunkStep_initial_loud :
    chunkStep initialVad true 0 = (⟨true, false, some 500, none, some 20000⟩, []) := by
  decide

theorem chunkStep_initial_quiet :
    chunkStep initialVad false 0 = (⟨true, false, none, none, some 20000⟩, []) := by
  decide

theorem runVadFrom_append (delta : Nat) (l1 : List Bool) : ∀ (s : VadState) (j : Nat)
    (l2 : List Bool),
    runVadFrom s delta j (l1 ++ l2) =
      ((runVadFrom (runVadFrom s delta j l1).1 delta (j + l1.length) l2).1,
       (runVadFrom s delta j l1).2 ++
         (runVadFrom (runVadFrom s delta j l1).1 delta (j + l1.length) l2).2) := by
  induction l1 with
  | nil =>
    intro s j l2
    simp [runVadFrom]
  | cons c cs ih =>
    intro s j l2
    simp only [List.cons_append, runVadFrom, List.length_cons, List.append_eq]
    rw [ih]
    rw [show j + (cs.length + 1) = j + 1 + cs.length from by omega]
    simp [List.append_assoc]

/-- Claim C8: starting in Silence, a loud run covering strictly less than
the 500 ms confirm window followed by a quiet chunk emits no speech-start
and leaves no speech-confirm timer pending (the quiet chunk cancels it);
a loud run that reaches the window and continues loud emits exactly one
speech-start. -/
theorem claim_c8_gate_confirm_window (delta m M : Nat) :
    (m * delta < 500 →
      countStart (runVad delta (List.replicate m true ++ [false])).2 = 0 ∧
      (runVad delta (List.replicate m true ++ [false])).1.speechDeadline = none ∧
      (runVad delta (List.replicate m true ++ [false])).1.isSpeechDetected = false) ∧
    (500 < (M - 1) * delta →
      countStart (runVad delta (List.replicate M true)).2 = 1) := by
  constructor
  · intro hm
    cases m with
    | zero =>
      simp only [List.replicate_zero, List.nil_append, runVad, runVadFrom, Nat.zero_mul]
      rw [chunkStep_initial_quiet]
      simp [runVadFrom, countStart]
    | succ m1 =>
      have hmono : m1 * delta ≤ (m1 + 1) * delta := Nat.mul_le_mul (by omega) (le_refl delta)
      have hA : (1 + m1 - 1) * delta ≤ 500 := by
        rw [show 1 + m1 - 1 = m1 from by omega]
        omega
      have hArun := vad_phaseA_run delta m1 1 (le_refl 1) hA
      simp only [Nat.sub_self, Nat.zero_mul, Nat.zero_add] at hArun
      have hquiet := chunkStep_phaseA_quiet delta (1 + m1) (by omega)
        (by rw [show 1 + m1 = m1 + 1 from by omega]; omega)
      rw [List.replicate_succ]
      simp only [List.cons_append, runVad, runVadFrom, Nat.zero_mul, List.append_eq]
      rw [chunkStep_initial_loud]
      rw [runVadFrom_append delta (List.replicate m1 true)]
      simp only [List.length_replicate]
      rw [hArun]
      simp only [runVadFrom]
      rw [hquiet]
      simp [countStart]
  · intro hB
    have hM : 1 ≤ M := by
      by_contra hM0
      have hM00 : M = 0 := by omega
      subst hM00
      simp at hB
    obtain ⟨M1, rfl⟩ : ∃ M1, M = M1 + 1 := ⟨M - 1, by omega⟩
    have hB1 : 500 < M1 * delta := by
      rwa [show M1 + 1 - 1 = M1 from by omega] at hB
    have h := vad_phaseA_one_start delta M1 1 (le_refl 1)
      (by simp)
      (by rw [show 1 + M1 - 1 = M1 from by omega]; exact hB1)
    simp only [Nat.sub_self, Nat.zero_mul, Nat.zero_add] at h
    rw [List.replicate_succ]
    simp only [runVad, runVadFrom, Nat.zero_mul]
    rw [chunkStep_initial_loud]
    simpa using h

theorem claim_c8_witness :
    3 * 100 < 500 ∧ 500 < (10 - 1) * 100 ∧
    (countStart (runVad 100 (List.replicate 3 true ++ [false])).2 = 0 ∧
      (runVad 100 (List.replicate 3 true ++ [false])).1.speechDeadline = none ∧
      (runVad 100 (List.replicate 3 true ++ [false])).1.isSpeechDetected = false) ∧
    countStart (runVad 100 (List.replicate 10 true)).2 = 1 :=
  ⟨by decide, by decide,
   (claim_c8_gate_confirm_window 100 3 10).1 (by decide),
   (claim_c8_gate_confirm_window 100 3 10).2 (by decide)⟩
